import Mathlib

/-!
# A shallow embedding of the ProAct.js reactive core

This file embeds the four source files of the sampled ProAct.js core —
`src/js/objects/observable.js`, `src/js/streams/stream.js`,
`src/js/cores/object_core.js`, `src/js/objects/prob.js` — as executable Lean
definitions, and proves properties of the embedding.

Modelling conventions:
* JavaScript values flowing through transform pipelines are modelled by the
  inductive `JsVal`; the `ProAct.Observable.BadValue` sentinel (a unique
  object, compared with `===` in the source) is the dedicated constructor
  `JsVal.badValue`.
* Callbacks/listeners are modelled as `Callback` records carrying an identity
  (`id`), whether they are tagged with a `property` field, whether they are a
  JS function (`isFunction`, the `P.U.isFunction` test), and whether they have
  a callable `call` member (`hasCall`, the `parent.call` truthiness test).
  JavaScript `null` listeners are modelled by `Option Callback` with `none`
  playing the role of `null`/`undefined` (both falsy).
* The scheduler `ProAct.Flow` is not among the sampled sources; it is
  modelled from the spec (§4.2): `push` is unconditional enqueue, `pushOnce`
  enqueues only when the callback identity is not already queued, `run` opens
  a batch (sets `running`), executes the body, drains the queue and closes
  the batch.  Draining is modelled by moving queue entries to an `executed`
  log; the execution of consumer callbacks themselves is outside the modelled
  fragment.  `Flow.sched` (executed ++ queue) is the drain-order log of
  everything ever scheduled, which drains preserve.
* `new Pro.Event(...)` allocates a fresh object on every call.  Freshness is
  modelled by threading a `supply : Nat` counter: each construction consumes
  one counter value as the event's identity, so "makeEvent was invoked
  exactly once" is visible as the counter advancing by one.
* Stateful transform closures (`filtering`, `accumulation`) are modelled by
  the inductive `Stage`, whose `accumulation` constructor carries its own
  running-state cell, mirroring the per-call closure variable `val` of the
  source; running the pipeline returns the updated stages.
-/

namespace ProActJs

/-- A JavaScript value as it flows through a transform pipeline.  `badValue`
is the unique `P.Observable.BadValue` sentinel; `errVal` models a thrown/
caught JS `Error` carrying its message. -/
inductive JsVal where
  | num : Int → JsVal
  | str : String → JsVal
  | boolv : Bool → JsVal
  | badValue : JsVal
  | errVal : String → JsVal
deriving DecidableEq, Repr

/-- The identity check `val === P.Observable.BadValue` of the source. -/
def JsVal.isBad : JsVal → Bool
  | .badValue => true
  | _ => false

/-- A listener/callback as seen by the scheduler and the observable protocol:
`id` is its JS object identity, `property` models the truthiness of the
`listener.property` tag, `isFunction` the `P.U.isFunction(listener)` test and
`hasCall` the truthiness of `listener.call`. -/
structure Callback where
  id : Nat
  property : Bool := false
  isFunction : Bool := true
  hasCall : Bool := true
deriving DecidableEq, Repr

/-- An event travelling to listeners.  `raw v` is a plain value (streams pass
the triggered value through unwrapped); `envelope eid source oid` is a
`new Pro.Event(source, this, Pro.Event.Types.value)` allocation whose
identity is the fresh counter value `eid` and whose `observable` is the node
with id `oid`. -/
inductive Event where
  | raw : JsVal → Event
  | envelope : Nat → Event → Nat → Event
deriving DecidableEq, Repr

/-- One enqueued invocation: the callback identity and the event argument it
was deferred with. -/
structure QueueEntry where
  cb : Callback
  event : Event
deriving DecidableEq, Repr

/-- Modelled from the spec: the `ProAct.Flow` scheduler state (its source is
not among the sampled files).  `running` is the reentrancy flag queried by
`isRunning()`, `queue` the current batch's pending invocations, and
`executed` the log of invocations already drained (consumer callback bodies
are outside the modelled fragment, so draining only moves entries to the
log). -/
structure Flow where
  running : Bool := false
  queue : List QueueEntry := []
  executed : List QueueEntry := []
deriving DecidableEq, Repr

/-- Modelled from the spec: `Pro.flow.push(callback, args)` — unconditional
enqueue; the same callback may be queued, and fire, several times per
batch. -/
def Flow.push (fl : Flow) (cb : Callback) (event : Event) : Flow :=
  { fl with queue := fl.queue ++ [⟨cb, event⟩] }

/-- Modelled from the spec: `Pro.flow.pushOnce(callback, args)` — enqueue
only if this callback identity is not already queued in the current batch
(re-calling for a queued callback must not cause a second firing; the
argument-merge policy is left first-call-wins, an open question of the
spec). -/
def Flow.pushOnce (fl : Flow) (cb : Callback) (event : Event) : Flow :=
  if fl.queue.any (fun q => decide (q.cb = cb)) then fl else fl.push cb event

/-- The full scheduling log of a flow, in invocation order: entries already
drained followed by entries still queued.  Draining a batch preserves this
log, enqueueing appends to it. -/
def Flow.sched (fl : Flow) : List QueueEntry := fl.executed ++ fl.queue

/-- One stage of an observable's `transforms` pipeline.
`fn` is a plain transformation function pushed by `transform`/`mapping`
(it may throw, hence `Except`); `filtering p` is the closure pushed by
`filtering(f)` (return the value if the predicate holds, else `BadValue`);
`accumulation cur f` is the closure pushed by `accumulation(initVal, f)`,
whose captured running-state variable `val` is the `cur` field — one
independent cell per constructor occurrence, exactly as one closure is
created per `accumulation` call in the source. -/
inductive Stage where
  | fn : (JsVal → Except JsVal JsVal) → Stage
  | filtering : (JsVal → Bool) → Stage
  | accumulation : JsVal → (JsVal → JsVal → JsVal) → Stage

/-- Application of a single pipeline stage to a value: the result (or thrown
error) together with the stage's updated closure state. -/
def applyStage : Stage → JsVal → Except JsVal JsVal × Stage
  | .fn f, v => ((f v), .fn f)
  | .filtering p, v => (.ok (if p v then v else .badValue), .filtering p)
  | .accumulation cur f, v =>
      let v' := f cur v
      (.ok v', .accumulation v' f)

/-- `ProAct.Observable.transform(observable, val)` (observable.js:63-73):
apply the stages left to right, breaking on the `BadValue` sentinel.  A
thrown error aborts the loop (and is reported in the `Except`); in every
case the updated closure states of the stages are returned — a stage that
ran keeps its update even when a later stage throws or yields `BadValue`,
and the stages after the break point are untouched. -/
def transformRun : List Stage → JsVal → Except JsVal JsVal × List Stage
  | [], v => (.ok v, [])
  | s :: rest, v =>
    match applyStage s v with
    | (.error e, s') => (.error e, s' :: rest)
    | (.ok v', s') =>
      if v'.isBad then (.ok .badValue, s' :: rest)
      else ((transformRun rest v').1, s' :: (transformRun rest v').2)

/-- Which concrete prototype a node uses: the base `ProAct.Observable`
prototype or the `ProAct.Stream` prototype (which overrides `makeEvent`,
`makeListener`, `makeErrListener`, `defer` and adds `trigger`/`go`). -/
inductive ObsKind where
  | base
  | stream
deriving DecidableEq, Repr

/-- The mutable state of one `ProAct.Observable` (observable.js:26-37), plus
bookkeeping the embedding needs: `id` is the node's JS object identity;
`lid`/`elid` are the identities the node's lazily created forwarding
listener/errListener closures will have when first materialized (a closure
allocated by `makeListener` is a fresh, thereafter stable, function). -/
structure Observable where
  id : Nat
  kind : ObsKind
  listeners : List (Option Callback)
  errListeners : List (Option Callback)
  sources : List Nat
  listener : Option Callback
  errListener : Option Callback
  transforms : List Stage
  parent : Option Callback
  lid : Nat
  elid : Nat

/-- The `ProAct.Observable` constructor (observable.js:26-37): empty
listener lists, empty sources, `null` listener/errListener/parent, and the
given transforms (or none). -/
def Observable.init (id lid elid : Nat) (kind : ObsKind)
    (transforms : List Stage := []) : Observable :=
  { id := id, kind := kind, listeners := [], errListeners := [],
    sources := [], listener := none, errListener := none,
    transforms := transforms, parent := none, lid := lid, elid := elid }

/-- `Pro.U.remove(array, value)` (utils are not among the sampled sources;
modelled from the spec §4.1, removal of the first matching entry). -/
def removeFirst {α : Type} [DecidableEq α] : List α → α → List α
  | [], _ => []
  | x :: xs, y => if x = y then xs else x :: removeFirst xs y

/-- `on(action, callback, callbacks)` (observable.js:135-147) at its two
call shapes used by the core, `on(cb)` and `on(cb, errListeners)`: the
callback (which may be JS `null`) is pushed onto the target list.  This is
the value-channel shape targeting `listeners`. -/
def Observable.on (o : Observable) (callback : Option Callback) : Observable :=
  { o with listeners := o.listeners ++ [callback] }

/-- `onErr(action, callback)` (observable.js:171-173): `on` targeting the
`errListeners` array. -/
def Observable.onErr (o : Observable) (callback : Option Callback) : Observable :=
  { o with errListeners := o.errListeners ++ [callback] }

/-- `off(action, callback, callbacks)` (observable.js:149-169) called as
`off(cb)` on the value channel: when the argument is falsy (JS `null` /
`undefined`, here `none`) the `!action && !callback` branch clears the whole
`listeners` list; otherwise the first matching entry is removed. -/
def Observable.off (o : Observable) (callback : Option Callback) : Observable :=
  match callback with
  | none => { o with listeners := [] }
  | some _ => { o with listeners := removeFirst o.listeners callback }

/-- `offErr(action, callback)` (observable.js:175-177): `off` with the
`errListeners` array as the `callbacks` argument — the falsy branch empties
that array (`callbacks.length = 0`), otherwise removes the entry. -/
def Observable.offErr (o : Observable) (callback : Option Callback) : Observable :=
  match callback with
  | none => { o with errListeners := [] }
  | some _ => { o with errListeners := removeFirst o.errListeners callback }

/-- The forwarding listener closure a `ProAct.Stream` allocates
(stream.js:79-88): identity `lid`, a plain function with no `property` tag. -/
def Observable.streamListenerCb (o : Observable) : Callback :=
  { id := o.lid }

/-- The forwarding error-listener closure a `ProAct.Stream` allocates
(stream.js:102-111). -/
def Observable.streamErrListenerCb (o : Observable) : Callback :=
  { id := o.elid }

/-- `makeListener()`: the base prototype (observable.js:106-108) returns
`null` and leaves `this.listener` untouched; the stream prototype
(stream.js:79-88) lazily allocates a stable forwarding closure, stores it in
`this.listener` and returns it. -/
def Observable.makeListenerM (o : Observable) : Option Callback × Observable :=
  match o.kind with
  | .base => (none, o)
  | .stream =>
    match o.listener with
    | some c => (some c, o)
    | none => (some o.streamListenerCb, { o with listener := some o.streamListenerCb })

/-- `makeErrListener()`: base (observable.js:127-129) returns `null`; stream
(stream.js:102-111) lazily allocates and stores the stable closure. -/
def Observable.makeErrListenerM (o : Observable) : Option Callback × Observable :=
  match o.kind with
  | .base => (none, o)
  | .stream =>
    match o.errListener with
    | some c => (some c, o)
    | none =>
      (some o.streamErrListenerCb, { o with errListener := some o.streamErrListenerCb })

/-- `into(source)` (observable.js:179-190) for one source: push the source
onto `this.sources`, then register `this.makeListener()` on the source's
value channel and `this.makeErrListener()` on its error channel.  Returns
the updated subscriber and source. -/
def Observable.into1 (n s : Observable) : Observable × Observable :=
  let n1 := { n with sources := n.sources ++ [s.id] }
  let (l, n2) := n1.makeListenerM
  let (el, n3) := n2.makeErrListenerM
  let s1 := s.on l
  let s2 := s1.onErr el
  (n3, s2)

/-- `offSource(source)` (observable.js:198-204): remove the source from
`this.sources`, then `source.off(this.listener)` and
`source.offErr(this.errListener)` — note that the *field* `this.listener` is
used, not `makeListener()`. -/
def Observable.offSource (n s : Observable) : Observable × Observable :=
  let n1 := { n with sources := removeFirst n.sources s.id }
  let s1 := s.off n.listener
  let s2 := s1.offErr n.errListener
  (n1, s2)

/-- `makeEvent(source)`: the base prototype (observable.js:131-133) allocates
`new Pro.Event(source, this, Pro.Event.Types.value)` — a fresh envelope,
consuming one identity from the supply; the stream prototype
(stream.js:63-65) is the identity on the source. -/
def Observable.makeEvent (o : Observable) (supply : Nat) (source : Event) :
    Event × Nat :=
  match o.kind with
  | .base => (Event.envelope supply source o.id, supply + 1)
  | .stream => (source, supply)

/-- `ProAct.Observable.prototype.defer(event, callback)`
(observable.js:280-287): both the function case and the object-with-`call`
case enqueue with the dedup discipline `pushOnce` (they differ only in the
invocation shape passed along, which the queue model does not record). -/
def Observable.observableDefer (fl : Flow) (event : Event) (callback : Callback) :
    Flow :=
  if callback.isFunction then fl.pushOnce callback event
  else fl.pushOnce callback event

/-- `ProAct.Stream.prototype.defer(event, listener)` (stream.js:134-145):
a listener carrying a `property` tag is delegated to the base dedup
discipline; any other listener is enqueued unconditionally with `push`
(again the function / object-with-`call` cases differ only in invocation
shape). -/
def Observable.streamDefer (fl : Flow) (event : Event) (listener : Callback) :
    Flow :=
  if listener.property then Observable.observableDefer fl event listener
  else if listener.isFunction then fl.push listener event
  else fl.push listener event

/-- Virtual dispatch of `this.defer(event, callback)` by the node's
prototype. -/
def Observable.deferDispatch (o : Observable) (fl : Flow) (event : Event)
    (cb : Callback) : Flow :=
  match o.kind with
  | .base => Observable.observableDefer fl event cb
  | .stream => Observable.streamDefer fl event cb

/-- The `for (i = 0; i < length; i++)` loop of `willUpdate`
(observable.js:263-271), iterating a *live* array under a length snapshot
taken before the loop.  `fuel` is `length - i`.  At each step the listener
at index `i` of the live array is read and deferred; if it carries a
`property` tag, that property's own `willUpdate(event)` runs synchronously —
its only effect on this node modelled here is `growth cb`, the listeners it
registers (appends) onto the iterated array during the round.  Reading a
JS `null` listener, or reading past the end of a shrunken array, makes
`defer`/`listener.property` throw a TypeError, modelled as `none`. -/
def wuLoop (o : Observable) (event : Event)
    (growth : Callback → List (Option Callback)) :
    Nat → Nat → List (Option Callback) → Flow →
    Option (List (Option Callback) × Flow)
  | 0, _, live, fl => some (live, fl)
  | fuel + 1, i, live, fl =>
    match live[i]? with
    | none => none
    | some none => none
    | some (some cb) =>
      let fl' := o.deferDispatch fl event cb
      let live' := if cb.property then live ++ growth cb else live
      wuLoop o event growth fuel (i + 1) live' fl'

/-- `willUpdate(source, callbacks)` (observable.js:257-278): choose the
target array (`callbacks` if given, else `this.listeners`), snapshot its
length, build the round's one event with `this.makeEvent(source)`, run the
loop, and finally defer `this.parent` when it is set and has a callable
`call`.  When the targets were `this.listeners` the node keeps the (possibly
grown) live array. -/
def Observable.willUpdate (o : Observable) (fl : Flow) (supply : Nat)
    (source : Event) (callbacks : Option (List (Option Callback)))
    (growth : Callback → List (Option Callback)) :
    Option (Observable × Flow × Nat) :=
  let targets := callbacks.getD o.listeners
  let length := targets.length
  let event := (o.makeEvent supply source).1
  let supply' := (o.makeEvent supply source).2
  match wuLoop o event growth length 0 targets fl with
  | none => none
  | some (live, fl1) =>
    let fl2 := match o.parent with
      | some p => if p.hasCall then o.deferDispatch fl1 event p else fl1
      | none => fl1
    let o' := match callbacks with
      | some _ => o
      | none => { o with listeners := live }
    some (o', fl2, supply')

/-- `update(source, callbacks)` (observable.js:241-255): the fast path
returns immediately when `listeners` and `errListeners` are empty and
`parent` is `null`; otherwise `willUpdate` runs inside the already-open
batch if the flow is running, else inside a fresh `Pro.flow.run` batch
(which the model closes by draining the queue into the executed log). -/
def Observable.update (o : Observable) (fl : Flow) (supply : Nat)
    (source : Event) (callbacks : Option (List (Option Callback)))
    (growth : Callback → List (Option Callback)) :
    Option (Observable × Flow × Nat) :=
  if o.listeners = [] ∧ o.errListeners = [] ∧ o.parent = none then
    some (o, fl, supply)
  else if fl.running then o.willUpdate fl supply source callbacks growth
  else
    match o.willUpdate { fl with running := true } supply source callbacks growth with
    | none => none
    | some (o', fl', s') =>
      some (o', { running := false, queue := [],
                  executed := fl'.executed ++ fl'.queue }, s')

/-- `triggerErr(err)` (stream.js:186-188): `this.update(err,
this.errListeners)` — the error value is routed through the node's own
error-listener array. -/
def Observable.triggerErr (o : Observable) (fl : Flow) (supply : Nat)
    (err : JsVal) (growth : Callback → List (Option Callback)) :
    Option (Observable × Flow × Nat) :=
  o.update fl supply (Event.raw err) (some o.errListeners) growth

/-- `go(event, useTransformations)` (stream.js:191-208): with
transformations enabled, apply the pipeline inside a `try`; a thrown error
is caught and redirected to `this.triggerErr(e)`, after which `go` returns
normally.  A `BadValue` result (checked with `===` against the sentinel)
returns without updating; otherwise the transformed value goes to
`this.update(event)`.  The pipeline's closure-state updates survive in the
node's `transforms` in every case. -/
def Observable.go (o : Observable) (fl : Flow) (supply : Nat) (event : JsVal)
    (useTransformations : Bool)
    (growth : Callback → List (Option Callback)) :
    Option (Observable × Flow × Nat) :=
  if useTransformations then
    match transformRun o.transforms event with
    | (.error e, ts') =>
      let o' := { o with transforms := ts' }
      o'.triggerErr fl supply e growth
    | (.ok v, ts') =>
      let o' := { o with transforms := ts' }
      if v.isBad then some (o', fl, supply)
      else o'.update fl supply (Event.raw v) none growth
  else
    if event.isBad then some (o, fl, supply)
    else o.update fl supply (Event.raw event) none growth

/-- `trigger(event, useTransformations)` (stream.js:164-169): the
transformations flag defaults to `true` when not passed. -/
def Observable.trigger (o : Observable) (fl : Flow) (supply : Nat)
    (event : JsVal) (useTransformations : Option Bool)
    (growth : Callback → List (Option Callback)) :
    Option (Observable × Flow × Nat) :=
  o.go fl supply event (useTransformations.getD true) growth

/-- A sequence of external `trigger(v)` calls against one stream, threading
the node, the flow and the event supply. -/
def triggerSeq (growth : Callback → List (Option Callback)) :
    List JsVal → Observable × Flow × Nat → Option (Observable × Flow × Nat)
  | [], st => some st
  | v :: vs, (o, fl, supply) =>
    match o.trigger fl supply v none growth with
    | none => none
    | some st' => triggerSeq growth vs st'

/-- The current value of a shell object's field, as far as the
classification predicates of `makeProp` distinguish them: `fnVal` is any
function, `arrVal` any array-like value (`P.U.isArrayObject`), `objVal` a
plain object with its own (name, value) fields in declaration order, and the
remaining constructors are the scalar/null categories. -/
inductive FieldVal where
  | vnull : FieldVal
  | vundefined : FieldVal
  | numv : Int → FieldVal
  | strv : String → FieldVal
  | boolFv : Bool → FieldVal
  | fnVal : FieldVal
  | arrVal : FieldVal
  | objVal : List (String × FieldVal) → FieldVal

/-- `P.U.isFunction` on a field value. -/
def FieldVal.isF : FieldVal → Bool
  | .fnVal => true
  | _ => false

/-- `P.U.isArrayObject` on a field value. -/
def FieldVal.isA : FieldVal → Bool
  | .arrVal => true
  | _ => false

/-- `P.U.isObject` on a field value (a plain object). -/
def FieldVal.isO : FieldVal → Bool
  | .objVal _ => true
  | _ => false

/-- The `object[property] === null || object[property] === undefined` test. -/
def FieldVal.isNullish : FieldVal → Bool
  | .vnull => true
  | .vundefined => true
  | _ => false

/-- The kind of `ProAct.Property` that `makeProp` constructs for a field:
`nullProp` is `P.NP`, `scalar` is `P.P`, `funcProp` is `P.FP`, `arrayProp`
is `P.AP`, and `objectProp core` is `P.OP` together with the nested core it
materializes for the nested object's fields.  The nested-core content is
modelled from the spec (§4.4: an Object-valued Property "recursively
materializes a nested Core"); `P.OP`'s own source is not among the sampled
files. -/
inductive PropKind where
  | nullProp : PropKind
  | scalar : PropKind
  | funcProp : PropKind
  | arrayProp : PropKind
  | objectProp : List (String × PropKind) → PropKind

/-- `object.hasOwnProperty(property)` together with the field read
`object[property]`: association-list lookup on the shell's own fields. -/
def lookupField : List (String × FieldVal) → String → Option FieldVal
  | [], _ => none
  | (k, v) :: rest, p => if k = p then some v else lookupField rest p

mutual
/-- The classification chain of `makeProp` (object_core.js:102-112) applied
to a field that `hasOwnProperty` reports as own, matching the source's
branch order: null/undefined → `P.NP`; neither function nor array nor
object → `P.P` (scalar); function → `P.FP`; array → `P.AP`; object →
`P.OP`.  For a plain object the first four chain conditions are all false,
so that case is split off structurally (its nested fields feed the nested
core).  When no branch matches the result stays `undefined` (`none`) —
unreachable for own fields, kept for faithfulness. -/
def classifyChain : FieldVal → Option PropKind
  | .objVal fields => some (.objectProp (classifyFields fields))
  | v =>
    if v.isNullish then some .nullProp
    else if !v.isF && !v.isA && !v.isO then some .scalar
    else if v.isF then some .funcProp
    else if v.isA then some .arrayProp
    else none

/-- The nested core an Object-valued Property materializes, field by field
(modelled from the spec, §4.4). -/
def classifyFields : List (String × FieldVal) → List (String × PropKind)
  | [] => []
  | (k, v) :: rest =>
    (match classifyChain v with
     | some kind => [(k, kind)]
     | none => []) ++ classifyFields rest
end

/-- The `ProAct.Configuration` surface `makeProp` consumes (external
collaborator, §6): the keyword-protection flag and the reserved-name
list. -/
structure Configuration where
  keyprops : Bool
  keypropList : List String

/-- The `meta` tag for a field, normalized to a tag list (`'noprop'` as a
bare string behaves as the singleton list, per the
`meta === 'noprop' || meta.indexOf('noprop') >= 0` test). -/
def metaIsNoprop : Option (List String) → Bool
  | none => false
  | some tags => tags.contains "noprop"

/-- The exact message of the reserved-keyword throw
(object_core.js:98). -/
def keywordErrorMsg (property : String) : String :=
  "The property name " ++ property ++
    " is a key word for pro objects! Objects passed to Pro.prob can not contain properties named as keyword properties."

/-- `makeProp(property, listeners, meta)` (object_core.js:84-127): a
`'noprop'` meta suppresses materialization (`return`, so `undefined`); with
keyword protection on, a reserved name throws; otherwise the field is
classified by the chain above (absent own property → no branch matches,
result `undefined`).  The `listeners`-merge and `P.registry.setup` steps are
outside the modelled fragment (the sampled claims never pass listeners and
use no registry). -/
def makeProp (conf : Configuration) (object : List (String × FieldVal))
    (property : String) (meta : Option (List String)) :
    Except String (Option PropKind) :=
  if metaIsNoprop meta then .ok none
  else if conf.keyprops && conf.keypropList.contains property then
    .error (keywordErrorMsg property)
  else
    match lookupField object property with
    | none => .ok none
    | some v => .ok (classifyChain v)

/-- `setup()` (object_core.js:76-83) iterating the shell's own enumerable
fields in declaration order, calling `makeProp(property, null,
this.meta[property])` for each.  A constructed Property registers itself in
the core's `properties` map (modelled from the spec, §3: "Core owns a
mapping from field name to Property, insertion order = field declaration
order at setup()"); a throw aborts the iteration there, leaving the
properties already registered in place. -/
def coreSetup (conf : Configuration) (object : List (String × FieldVal))
    (meta : String → Option (List String)) :
    List (String × FieldVal) → Option String × List (String × PropKind)
  | [] => (none, [])
  | (k, _) :: rest =>
    match makeProp conf object k (meta k) with
    | .error msg => (some msg, [])
    | .ok none => coreSetup conf object meta rest
    | .ok (some kind) =>
      ((coreSetup conf object meta rest).1,
       (k, kind) :: (coreSetup conf object meta rest).2)

/-- The `ProAct.ObjectCore` a reactified shell ends up owning: its
field-name → Property map. -/
structure Core where
  properties : List (String × PropKind)

/-- The observable outcome of `ProAct.prob` on a plain object: whether an
error escaped, and the `__pro__` back-reference the shell carries
afterwards (with the core's properties map as it stood when `prob`
returned or threw). -/
structure ProbOutcome where
  errorMsg : Option String
  proRef : Option Core

/-- The plain-object branch of `ProAct.prob` (prob.js:38-43): construct the
core, define the non-enumerable `__pro__` back-reference on the shell
*before* `core.prob()` runs, then run `core.prob()` — which performs
`setup()` (modelled from the spec, §6: "attach a Core, expose a hidden
back-reference, run setup()"; `P.C.prototype.prob`'s source is not among
the sampled files).  A throw from `setup` escapes `ProAct.prob` uncaught;
the shell keeps the back-reference and the partially filled core. -/
def probObject (conf : Configuration) (fields : List (String × FieldVal))
    (meta : String → Option (List String)) : ProbOutcome :=
  { errorMsg := (coreSetup conf fields meta fields).1,
    proRef := some ⟨(coreSetup conf fields meta fields).2⟩ }

/-- The classification dispatch of `ProAct.prob` (prob.js:26-44):
null / non-object / non-array → `new P.V(object, meta)`; array →
`new P.A(object)`; plain object → the reactified shell itself. -/
inductive ProbResult where
  | val : FieldVal → ProbResult
  | arrayObj : ProbResult
  | reactiveObject : ProbOutcome → ProbResult

/-- The `object === null` test of `ProAct.prob`. -/
def FieldVal.isNullLit : FieldVal → Bool
  | .vnull => true
  | _ => false

/-- `ProAct.prob(object, meta)` (prob.js:26-44). -/
def prob (conf : Configuration) (object : FieldVal)
    (meta : String → Option (List String)) : ProbResult :=
  if object.isNullLit || (!object.isO && !object.isA) then .val object
  else if object.isA then .arrayObj
  else
    match object with
    | .objVal fields => .reactiveObject (probObject conf fields meta)
    | _ => .val object

/-! ### Proof-support definitions and concrete scenario constants -/

/-- Sequential deferral of a list of listeners with one shared event: the
flow effect of the `willUpdate` loop, stated on the pre-iteration snapshot.
A JS `null` listener makes `defer` throw (`none`). -/
def deferSeq (o : Observable) (event : Event) :
    List (Option Callback) → Flow → Option Flow
  | [], fl => some fl
  | none :: _, _ => none
  | some cb :: rest, fl => deferSeq o event rest (o.deferDispatch fl event cb)

/-- How many queued invocations of a given callback identity the current
batch holds. -/
def queueCount (fl : Flow) (cb : Callback) : Nat :=
  fl.queue.countP (fun q => decide (q.cb = cb))

/-- No reentrant listener registration during a round (the scenarios below
have no property-tagged listeners, so their behavior does not depend on this
choice). -/
def noGrowth : Callback → List (Option Callback) := fun _ => []

/-- A plain downstream listener function (no `property` tag). -/
def cbA : Callback := { id := 100 }

/-- An error-channel listener function. -/
def errCb : Callback := { id := 200 }

/-- A listener registered by some unrelated third node. -/
def otherCb : Callback := { id := 300 }

/-- The predicate `x => x > 0` of the filter-suppression scenario. -/
def posP : JsVal → Bool
  | .num n => decide (0 < n)
  | _ => false

/-- The combine function `(a, v) => a + v` of the accumulation scenario. -/
def jsAdd : JsVal → JsVal → JsVal
  | .num a, .num b => .num (a + b)
  | _, _ => .badValue

/-- A transform stage that always throws. -/
def throwStage : Stage := .fn (fun _ => .error (.errVal "boom"))

/-- A stream with pipeline `filtering(x => x > 0)` and one plain listener. -/
def streamFilterEx : Observable :=
  { Observable.init 1 11 12 .stream [Stage.filtering posP] with
      listeners := [some cbA] }

/-- A stream with pipeline `accumulation(0, (a,v) => a+v)` and one plain
listener. -/
def streamAccEx : Observable :=
  { Observable.init 1 11 12 .stream [Stage.accumulation (.num 0) jsAdd] with
      listeners := [some cbA] }

/-- A stream on which `accumulation(0, ...)` was called twice, creating two
independent running-state cells. -/
def streamAccTwoEx : Observable :=
  { Observable.init 1 11 12 .stream
      [Stage.accumulation (.num 0) jsAdd, Stage.accumulation (.num 0) jsAdd] with
      listeners := [some cbA] }

/-- A stream whose one transform throws, with one value listener and one
error listener. -/
def streamThrowEx : Observable :=
  { Observable.init 1 11 12 .stream [throwStage] with
      listeners := [some cbA], errListeners := [some errCb] }

/-- A base observable that never materialized its forwarding listener. -/
def baseNodeEx : Observable := Observable.init 2 21 22 .base

/-- A fresh stream node used as the subscriber in the edge round trip. -/
def streamNodeEx : Observable := Observable.init 4 41 42 .stream

/-- A source node already carrying listeners registered by unrelated
nodes. -/
def targetNodeEx : Observable :=
  { Observable.init 3 31 32 .stream with
      listeners := [some otherCb, some cbA], errListeners := [some errCb] }

/-- A configuration with keyword protection off. -/
def confOffEx : Configuration := ⟨false, []⟩

/-- The classification shell `{a: null, b: 5, c: () => {}, d: [], e: {}}`. -/
def classifyShellEx : List (String × FieldVal) :=
  [("a", .vnull), ("b", .numv 5), ("c", .fnVal), ("d", .arrVal),
   ("e", .objVal [])]

/-- A configuration with keyword protection on and reserved name `p`. -/
def confOnEx : Configuration := ⟨true, ["p"]⟩

/-- A shell whose second field collides with the reserved name `p`. -/
def reservedShellEx : List (String × FieldVal) :=
  [("good", .numv 5), ("p", .numv 1)]

/-- The running-state cell of an `accumulation` stage, if any. -/
def accStateOf : Stage → Option JsVal
  | .accumulation c _ => some c
  | _ => none

/-- A base observable with two plain listeners, used to exercise a
`willUpdate` round. -/
def baseNotifyEx : Observable :=
  { Observable.init 5 51 52 .base with listeners := [some cbA, some otherCb] }

/-! ### Scheduler lemmas -/

theorem sched_push (fl : Flow) (cb : Callback) (e : Event) :
    (fl.push cb e).sched = fl.sched ++ [⟨cb, e⟩] := by
  simp [Flow.push, Flow.sched]

theorem push_spec (fl : Flow) (cb : Callback) (e : Event) :
    ∃ d, (fl.push cb e).sched = fl.sched ++ d
      ∧ (fl.push cb e).running = fl.running
      ∧ ∀ q ∈ d, q.event = e ∧ q.cb = cb := by
  refine ⟨[⟨cb, e⟩], sched_push fl cb e, rfl, ?_⟩
  intro q hq
  simp only [List.mem_singleton] at hq
  subst hq
  exact ⟨rfl, rfl⟩

theorem pushOnce_spec (fl : Flow) (cb : Callback) (e : Event) :
    ∃ d, (fl.pushOnce cb e).sched = fl.sched ++ d
      ∧ (fl.pushOnce cb e).running = fl.running
      ∧ ∀ q ∈ d, q.event = e ∧ q.cb = cb := by
  unfold Flow.pushOnce
  split
  · exact ⟨[], by simp, rfl, by simp⟩
  · exact push_spec fl cb e

theorem deferDispatch_spec (o : Observable) (fl : Flow) (e : Event)
    (cb : Callback) :
    ∃ d, (o.deferDispatch fl e cb).sched = fl.sched ++ d
      ∧ (o.deferDispatch fl e cb).running = fl.running
      ∧ ∀ q ∈ d, q.event = e ∧ q.cb = cb := by
  unfold Observable.deferDispatch Observable.observableDefer Observable.streamDefer
  cases o.kind with
  | base =>
    simp only
    split <;> exact pushOnce_spec fl cb e
  | stream =>
    simp only
    split
    · unfold Observable.observableDefer
      split <;> exact pushOnce_spec fl cb e
    · split <;> exact push_spec fl cb e

theorem deferSeq_some (o : Observable) (e : Event) :
    ∀ (cs : List (Option Callback)) (fl : Flow),
      (∀ c ∈ cs, c ≠ none) → ∃ fl', deferSeq o e cs fl = some fl' := by
  intro cs
  induction cs with
  | nil => exact fun fl _ => ⟨fl, rfl⟩
  | cons c rest ih =>
    intro fl h
    cases c with
    | none => exact absurd rfl (h none (by simp))
    | some cb =>
      simpa [deferSeq] using ih (o.deferDispatch fl e cb)
        (fun c hc => h c (List.mem_cons_of_mem _ hc))

theorem deferSeq_spec (o : Observable) (e : Event) :
    ∀ (cs : List (Option Callback)) (fl fl' : Flow),
      deferSeq o e cs fl = some fl' →
      fl'.running = fl.running
        ∧ ∃ d, fl'.sched = fl.sched ++ d
            ∧ ∀ q ∈ d, q.event = e ∧ some q.cb ∈ cs := by
  intro cs
  induction cs with
  | nil =>
    intro fl fl' h
    simp only [deferSeq, Option.some.injEq] at h
    subst h
    exact ⟨rfl, [], by simp, by simp⟩
  | cons c rest ih =>
    intro fl fl' h
    cases c with
    | none => simp [deferSeq] at h
    | some cb =>
      simp only [deferSeq] at h
      obtain ⟨hrun, d2, hsched2, hmem2⟩ := ih _ _ h
      obtain ⟨d1, hsched1, hrun1, hmem1⟩ := deferDispatch_spec o fl e cb
      refine ⟨hrun.trans hrun1, d1 ++ d2, ?_, ?_⟩
      · rw [hsched2, hsched1, List.append_assoc]
      · intro q hq
        rcases List.mem_append.mp hq with hq1 | hq2
        · obtain ⟨he, hc⟩ := hmem1 q hq1
          exact ⟨he, by simp [hc]⟩
        · obtain ⟨he, hc⟩ := hmem2 q hq2
          exact ⟨he, List.mem_cons_of_mem _ hc⟩

/-- The `willUpdate` loop under a length snapshot: however the live array
grows during the round (`ext` is what has been appended so far, `growth` what
property listeners append as they are processed), the loop defers exactly
the entries of the pre-iteration snapshot `l₀`, in order. -/
theorem wuLoop_snd (o : Observable) (e : Event)
    (g : Callback → List (Option Callback)) (l₀ : List (Option Callback)) :
    ∀ (fuel i : Nat) (ext : List (Option Callback)) (fl : Flow),
      fuel + i = l₀.length →
      Option.map Prod.snd (wuLoop o e g fuel i (l₀ ++ ext) fl)
        = deferSeq o e (l₀.drop i) fl := by
  intro fuel
  induction fuel with
  | zero =>
    intro i ext fl h
    have hd : l₀.drop i = [] := List.drop_eq_nil_of_le (by omega)
    simp [wuLoop, hd, deferSeq]
  | succ fuel ih =>
    intro i ext fl h
    have hi : i < l₀.length := by omega
    have hget : (l₀ ++ ext)[i]? = some l₀[i] := by
      rw [List.getElem?_append_left hi]
      exact List.getElem?_eq_getElem hi
    have hdrop : l₀.drop i = l₀[i] :: l₀.drop (i + 1) :=
      List.drop_eq_getElem_cons hi
    cases hcb : l₀[i] with
    | none =>
      rw [hcb] at hget
      simp [wuLoop, hget, hdrop, hcb, deferSeq]
    | some cb =>
      rw [hcb] at hget
      rw [hdrop, hcb]
      simp only [wuLoop, hget, deferSeq]
      by_cases hp : cb.property
      · rw [if_pos hp, List.append_assoc]
        exact ih (i + 1) (ext ++ g cb) _ (by omega)
      · rw [if_neg hp]
        exact ih (i + 1) ext _ (by omega)

/-- What one `willUpdate` round does to the scheduler: the result exists
(the targets being real listeners), the event supply advances exactly as one
`makeEvent` invocation does, every scheduled entry carries that one event,
and every scheduled callback comes from the pre-iteration snapshot of the
target list or is the parent — regardless of what `growth` (reentrant
registration during the round) does. -/
theorem willUpdate_spec (o : Observable) (fl : Flow) (supply : Nat)
    (source : Event) (cbs : Option (List (Option Callback)))
    (growth : Callback → List (Option Callback))
    (h : ∀ c ∈ cbs.getD o.listeners, c ≠ none) :
    ∃ o' fl' d,
      o.willUpdate fl supply source cbs growth
        = some (o', fl', (o.makeEvent supply source).2)
      ∧ fl'.running = fl.running
      ∧ fl'.sched = fl.sched ++ d
      ∧ (∀ q ∈ d, q.event = (o.makeEvent supply source).1
          ∧ (some q.cb ∈ cbs.getD o.listeners ∨ o.parent = some q.cb))
      ∧ (cbs.isSome = true → o' = o) := by
  obtain ⟨fl1, hds⟩ := deferSeq_some o (o.makeEvent supply source).1
    (cbs.getD o.listeners) fl h
  have hmap := wuLoop_snd o (o.makeEvent supply source).1 growth
    (cbs.getD o.listeners) (cbs.getD o.listeners).length 0 [] fl (by omega)
  rw [List.append_nil, List.drop_zero] at hmap
  cases hwl : wuLoop o (o.makeEvent supply source).1 growth
      (cbs.getD o.listeners).length 0 (cbs.getD o.listeners) fl with
  | none => rw [hwl, hds] at hmap; simp at hmap
  | some pr =>
    obtain ⟨live, flL⟩ := pr
    rw [hwl] at hmap
    simp only [Option.map_some'] at hmap
    obtain ⟨hrun1, d1, hs1, hm1⟩ := deferSeq_spec o _ _ fl flL hmap.symm
    simp only [Observable.willUpdate]
    rw [hwl]
    cases hp : o.parent with
    | none =>
      refine ⟨_, flL, d1, rfl, hrun1, hs1, ?_, ?_⟩
      · intro q hq
        obtain ⟨he, hc⟩ := hm1 q hq
        exact ⟨he, Or.inl hc⟩
      · cases cbs with
        | none => simp
        | some cs => simp
    | some p =>
      by_cases hcall : p.hasCall
      · simp only [hcall, if_true]
        obtain ⟨d2, hs2, hr2, hm2⟩ :=
          deferDispatch_spec o flL (o.makeEvent supply source).1 p
        refine ⟨_, _, d1 ++ d2, rfl, hr2.trans hrun1, ?_, ?_, ?_⟩
        · rw [hs2, hs1, List.append_assoc]
        · intro q hq
          rcases List.mem_append.mp hq with hq1 | hq2
          · obtain ⟨he, hc⟩ := hm1 q hq1
            exact ⟨he, Or.inl hc⟩
          · obtain ⟨he, hc⟩ := hm2 q hq2
            exact ⟨he, Or.inr (by rw [hc])⟩
        · cases cbs with
          | none => simp
          | some cs => simp
      · simp only [hcall, if_false]
        refine ⟨_, flL, d1, rfl, hrun1, hs1, ?_, ?_⟩
        · intro q hq
          obtain ⟨he, hc⟩ := hm1 q hq
          exact ⟨he, Or.inl hc⟩
        · cases cbs with
          | none => simp
          | some cs => simp

/-- What one `update` call does to the scheduler, covering the fast path,
the already-running path and the fresh-batch (run-and-drain) path uniformly
through the `sched` log. -/
theorem update_spec (o : Observable) (fl : Flow) (supply : Nat)
    (source : Event) (cbs : Option (List (Option Callback)))
    (growth : Callback → List (Option Callback))
    (h : ∀ c ∈ cbs.getD o.listeners, c ≠ none) :
    ∃ o' fl' s' d,
      o.update fl supply source cbs growth = some (o', fl', s')
      ∧ fl'.running = fl.running
      ∧ fl'.sched = fl.sched ++ d
      ∧ (∀ q ∈ d, q.event = (o.makeEvent supply source).1
          ∧ (some q.cb ∈ cbs.getD o.listeners ∨ o.parent = some q.cb))
      ∧ (s' = (o.makeEvent supply source).2 ∨ s' = supply)
      ∧ (cbs.isSome = true → o' = o) := by
  unfold Observable.update
  split
  · exact ⟨o, fl, supply, [], rfl, rfl, by simp, by simp, Or.inr rfl,
      fun _ => rfl⟩
  · obtain ⟨o', fl', d, heq, hrun, hsched, hmem, ho⟩ :=
      willUpdate_spec o { fl with running := true } supply source cbs growth h
    have hsched' : Flow.sched { fl with running := true } = fl.sched := rfl
    rw [hsched'] at hsched
    split
    · obtain ⟨o2, fl2, d2, heq2, hrun2, hsched2, hmem2, ho2⟩ :=
        willUpdate_spec o fl supply source cbs growth h
      exact ⟨o2, fl2, _, d2, heq2, hrun2, hsched2, hmem2, Or.inl rfl, ho2⟩
    · rename_i hnr
      have hfr : fl.running = false := by
        revert hnr; cases fl.running <;> simp
      rw [heq]
      refine ⟨o', _, _, d, rfl, ?_, ?_, hmem, Or.inl rfl, ho⟩
      · simp [hfr]
      · simpa [Flow.sched] using hsched

/-! ### Pipeline lemmas -/

/-- Running a pipeline split as `xs ++ ys`: when `xs` completes normally
with a non-`BadValue` result `w`, the run continues through `ys` on `w`,
with the updated `xs` states prepended. -/
theorem transformRun_append_ok (ys : List Stage) :
    ∀ (xs : List Stage) (v w : JsVal) (xs' : List Stage),
      transformRun xs v = (.ok w, xs') → w.isBad = false →
      transformRun (xs ++ ys) v
        = ((transformRun ys w).1, xs' ++ (transformRun ys w).2) := by
  intro xs
  induction xs with
  | nil =>
    intro v w xs' hrun _
    simp only [transformRun, Prod.mk.injEq, Except.ok.injEq] at hrun
    obtain ⟨hw, hxs⟩ := hrun
    subst hw; subst hxs
    simp
  | cons s rest ih =>
    intro v w xs' hrun hbad
    rcases ha : applyStage s v with ⟨r1, s1⟩
    cases r1 with
    | error e =>
      rw [transformRun, ha] at hrun
      simp at hrun
    | ok v' =>
      rw [transformRun, ha] at hrun
      dsimp only at hrun
      by_cases hb : v'.isBad
      · rw [if_pos hb] at hrun
        simp only [Prod.mk.injEq, Except.ok.injEq] at hrun
        rw [← hrun.1] at hbad
        simp [JsVal.isBad] at hbad
      · rw [if_neg hb] at hrun
        simp only [Prod.mk.injEq] at hrun
        rcases htr : transformRun rest v' with ⟨r2, rest2⟩
        rw [htr] at hrun
        simp only at hrun
        obtain ⟨hr2, hxs⟩ := hrun
        subst hr2
        have := ih v' w rest2 htr hbad
        rw [List.cons_append, transformRun, ha]
        dsimp only
        rw [if_neg hb, this, ← hxs]
        simp

/-- A `filtering` stage whose predicate rejects the incoming value yields
the `BadValue` sentinel and leaves every stage after it untouched. -/
theorem transformRun_filter_halt (pre post : List Stage) (p : JsVal → Bool)
    (v w : JsVal) (pre' : List Stage)
    (hrun : transformRun pre v = (.ok w, pre'))
    (hbad : w.isBad = false) (hrej : p w = false) :
    transformRun (pre ++ Stage.filtering p :: post) v
      = (.ok .badValue, pre' ++ Stage.filtering p :: post) := by
  have hstep : transformRun (Stage.filtering p :: post) w
      = (.ok .badValue, Stage.filtering p :: post) := by
    rw [transformRun]
    simp [applyStage, hrej, JsVal.isBad]
  rw [transformRun_append_ok (Stage.filtering p :: post) pre v w pre' hrun hbad,
    hstep]

/-- An `accumulation` stage at the head of a pipeline updates its own
running-state cell to `f cur v` — regardless of what the rest of the
pipeline is or does. -/
theorem transformRun_acc_head (c : JsVal) (f : JsVal → JsVal → JsVal)
    (rest : List Stage) (v : JsVal) :
    (transformRun (Stage.accumulation c f :: rest) v).2.head?
      = some (Stage.accumulation (f c v) f) := by
  rw [transformRun]
  simp only [applyStage]
  split <;> simp

/-! ### List-removal lemmas -/

theorem removeFirst_append_singleton {α : Type} [DecidableEq α]
    (xs : List α) (a : α) (h : a ∉ xs) :
    removeFirst (xs ++ [a]) a = xs := by
  induction xs with
  | nil => simp [removeFirst]
  | cons x xs ih =>
    have hx : ¬(x = a) := fun hxa => h (hxa ▸ List.mem_cons_self x xs)
    simp only [List.cons_append, removeFirst, if_neg hx, List.append_eq]
    rw [ih (fun hmem => h (List.mem_cons_of_mem x hmem))]

/-! ### Queue-count lemmas -/

theorem queueCount_zero (fl : Flow) (cb : Callback)
    (h : ∀ q ∈ fl.queue, q.cb ≠ cb) : queueCount fl cb = 0 := by
  unfold queueCount
  exact List.countP_eq_zero.mpr (fun q hq => by simpa using h q hq)

theorem queueCount_push (fl : Flow) (cb : Callback) (e : Event) :
    queueCount (fl.push cb e) cb = queueCount fl cb + 1 := by
  simp [queueCount, Flow.push, List.countP_append]

theorem pushOnce_of_not_queued (fl : Flow) (cb : Callback) (e : Event)
    (h : ∀ q ∈ fl.queue, q.cb ≠ cb) : fl.pushOnce cb e = fl.push cb e := by
  unfold Flow.pushOnce
  rw [if_neg]
  intro hany
  obtain ⟨q, hq, hcb⟩ := List.any_eq_true.mp hany
  exact h q hq (by simpa using hcb)

theorem pushOnce_of_queued (fl : Flow) (cb : Callback) (e : Event)
    (h : ∃ q ∈ fl.queue, q.cb = cb) : fl.pushOnce cb e = fl := by
  unfold Flow.pushOnce
  rw [if_pos]
  obtain ⟨q, hq, hcb⟩ := h
  exact List.any_eq_true.mpr ⟨q, hq, by simpa using hcb⟩

theorem observableDefer_eq_pushOnce (fl : Flow) (e : Event) (cb : Callback) :
    Observable.observableDefer fl e cb = fl.pushOnce cb e := by
  unfold Observable.observableDefer
  split <;> rfl

theorem streamDefer_eq_push (fl : Flow) (e : Event) (cb : Callback)
    (h : cb.property = false) :
    Observable.streamDefer fl e cb = fl.push cb e := by
  unfold Observable.streamDefer
  rw [h]
  simp only [Bool.false_eq_true, if_false]
  split <;> rfl

theorem streamDefer_eq_base (fl : Flow) (e : Event) (cb : Callback)
    (h : cb.property = true) :
    Observable.streamDefer fl e cb = Observable.observableDefer fl e cb := by
  unfold Observable.streamDefer
  rw [h]
  simp

/-! ### Field-classification lemmas -/

theorem makeProp_ok_of_unreserved (conf : Configuration)
    (obj : List (String × FieldVal)) (k : String) (m : Option (List String))
    (h : conf.keypropList.contains k = false) :
    ∃ r, makeProp conf obj k m = .ok r := by
  unfold makeProp
  split
  · exact ⟨none, rfl⟩
  · simp only [h, Bool.and_false, Bool.false_eq_true, if_false]
    cases lookupField obj k with
    | none => exact ⟨none, rfl⟩
    | some v => exact ⟨classifyChain v, rfl⟩

theorem makeProp_reserved_throws (conf : Configuration)
    (obj : List (String × FieldVal)) (k : String) (m : Option (List String))
    (hkp : conf.keyprops = true) (hk : conf.keypropList.contains k = true)
    (hm : metaIsNoprop m = false) :
    makeProp conf obj k m = .error (keywordErrorMsg k) := by
  unfold makeProp
  rw [hm, if_neg (by simp), if_pos (by rw [hkp, hk]; rfl)]

/-- `setup` over a field list with an unreserved prefix followed by a
reserved field: the iteration throws at the reserved field and the
properties materialized for the prefix remain. -/
theorem coreSetup_prefix_error (conf : Configuration)
    (obj : List (String × FieldVal)) (meta : String → Option (List String))
    (k₀ : String) (v₀ : FieldVal) (rest : List (String × FieldVal))
    (hkp : conf.keyprops = true) (hk : conf.keypropList.contains k₀ = true)
    (hmeta : metaIsNoprop (meta k₀) = false) :
    ∀ pre : List (String × FieldVal),
      (∀ kv ∈ pre, conf.keypropList.contains kv.1 = false) →
      coreSetup conf obj meta (pre ++ (k₀, v₀) :: rest)
        = (some (keywordErrorMsg k₀), (coreSetup conf obj meta pre).2) := by
  intro pre
  induction pre with
  | nil =>
    intro _
    simp only [List.nil_append, coreSetup,
      makeProp_reserved_throws conf obj k₀ (meta k₀) hkp hk hmeta]
  | cons kv pre ih =>
    intro hpre
    obtain ⟨k, v⟩ := kv
    have hknot : conf.keypropList.contains k = false :=
      hpre (k, v) (List.mem_cons_self _ _)
    have hih := ih (fun kv hm => hpre kv (List.mem_cons_of_mem _ hm))
    obtain ⟨r, hr⟩ := makeProp_ok_of_unreserved conf obj k (meta k) hknot
    cases r with
    | none =>
      simp only [List.cons_append, coreSetup, hr, List.append_eq, hih]
    | some kind =>
      simp only [List.cons_append, coreSetup, hr, List.append_eq, hih]

/-! ### Claim theorems -/

/-- Claim C10: for every Observable whose `listeners` list is empty, whose
`errListeners` list is empty, and whose `parent` is unset, calling `update`
performs nothing: the node, the flow (queue, executed log and running flag,
so no batch is opened and `willUpdate` is not entered) and the event supply
(so no Event is constructed) are all returned unchanged. -/
theorem update_noop_fast_path (o : Observable) (fl : Flow) (supply : Nat)
    (source : Event) (cbs : Option (List (Option Callback)))
    (growth : Callback → List (Option Callback))
    (h1 : o.listeners = []) (h2 : o.errListeners = []) (h3 : o.parent = none) :
    o.update fl supply source cbs growth = some (o, fl, supply) := by
  unfold Observable.update
  rw [if_pos ⟨h1, h2, h3⟩]

/-- Witness for C10 at a concrete freshly constructed node. -/
theorem update_noop_fast_path_witness :
    (Observable.init 7 71 72 .base).update {} 0 (Event.raw (.num 1)) none
        noGrowth
      = some (Observable.init 7 71 72 .base, {}, 0) :=
  update_noop_fast_path (Observable.init 7 71 72 .base) {} 0
    (Event.raw (.num 1)) none noGrowth rfl rfl rfl

/-- Claim C9: for every Observable `N` whose `listener` field is still `null`
(`makeListener` never invoked, or returning `null` as the base prototype's
does) and whose `errListener` is likewise `null`, `N.offSource(S)` invokes
`S.off(null)` and `S.offErr(null)`, which take the no-argument clear-all
branch: S's entire `listeners` list and entire `errListeners` list are
emptied — every listener registered on S is removed, including those
registered by other, unrelated nodes. -/
theorem offSource_null_listener_clears_all (n s : Observable)
    (h1 : n.listener = none) (h2 : n.errListener = none) :
    ((n.offSource s).2).listeners = []
      ∧ ((n.offSource s).2).errListeners = [] := by
  unfold Observable.offSource
  rw [h1, h2]
  exact ⟨rfl, rfl⟩

/-- Witness for C9: a base node that never materialized its listener wipes
a source that carried two value listeners and one error listener registered
by unrelated nodes. -/
theorem offSource_null_listener_clears_all_witness :
    ((baseNodeEx.offSource targetNodeEx).2).listeners = []
      ∧ ((baseNodeEx.offSource targetNodeEx).2).errListeners = [] :=
  offSource_null_listener_clears_all baseNodeEx targetNodeEx rfl rfl

/-- Claim C8: `N.into(S)` immediately followed by `N.offSource(S)` is a round
trip on the edge: provided the edge did not already exist (S is not among
N's sources, N's would-be forwarding listeners are not among S's lists, and
N has not yet materialized its listeners), afterwards S's `listeners` list
does not contain N's listener, S's `errListeners` list does not contain N's
errListener, and `N.sources` does not contain S — both directions of the
edge are removed as a pair. -/
theorem into_offSource_round_trip (n s : Observable)
    (h1 : n.listener = none) (h2 : n.errListener = none)
    (h3 : s.id ∉ n.sources)
    (h4 : (some n.streamListenerCb) ∉ s.listeners)
    (h5 : (some n.streamErrListenerCb) ∉ s.errListeners) :
    ((n.into1 s).1.offSource (n.into1 s).2).1.listener
        ∉ ((n.into1 s).1.offSource (n.into1 s).2).2.listeners
      ∧ ((n.into1 s).1.offSource (n.into1 s).2).1.errListener
          ∉ ((n.into1 s).1.offSource (n.into1 s).2).2.errListeners
      ∧ s.id ∉ ((n.into1 s).1.offSource (n.into1 s).2).1.sources := by
  cases hk : n.kind with
  | base =>
    simp only [Observable.into1, Observable.makeListenerM,
      Observable.makeErrListenerM, hk, h1, h2, Observable.on, Observable.onErr,
      Observable.offSource, Observable.off, Observable.offErr]
    refine ⟨by simp, by simp, ?_⟩
    rw [removeFirst_append_singleton n.sources s.id h3]
    exact h3
  | stream =>
    simp only [Observable.into1, Observable.makeListenerM,
      Observable.makeErrListenerM, hk, h1, h2, Observable.on, Observable.onErr,
      Observable.offSource, Observable.off, Observable.offErr,
      Observable.streamListenerCb, Observable.streamErrListenerCb]
    simp only [Observable.streamListenerCb, Observable.streamErrListenerCb]
      at h4 h5
    rw [removeFirst_append_singleton n.sources s.id h3,
      removeFirst_append_singleton s.listeners _ h4,
      removeFirst_append_singleton s.errListeners _ h5]
    exact ⟨h4, h5, h3⟩

/-- Witness for C8: round trip of a fresh stream node against a source
already carrying unrelated listeners. -/
theorem into_offSource_round_trip_witness :
    ((streamNodeEx.into1 targetNodeEx).1.offSource
          (streamNodeEx.into1 targetNodeEx).2).1.listener
        ∉ ((streamNodeEx.into1 targetNodeEx).1.offSource
            (streamNodeEx.into1 targetNodeEx).2).2.listeners
      ∧ ((streamNodeEx.into1 targetNodeEx).1.offSource
            (streamNodeEx.into1 targetNodeEx).2).1.errListener
          ∉ ((streamNodeEx.into1 targetNodeEx).1.offSource
              (streamNodeEx.into1 targetNodeEx).2).2.errListeners
      ∧ targetNodeEx.id ∉ ((streamNodeEx.into1 targetNodeEx).1.offSource
            (streamNodeEx.into1 targetNodeEx).2).1.sources :=
  into_offSource_round_trip streamNodeEx targetNodeEx rfl rfl
    (by decide) (by decide) (by decide)

/-- Claim C3: `Stream.defer` enqueues with the dedup discipline (`pushOnce`, at
most one queued invocation per callback identity per batch) exactly when
the callback carries a `property` tag, and otherwise enqueues
unconditionally (`push`), so a plain listener of a Stream fires once per
enqueue within one batch; the base `Observable.defer` always uses the dedup
discipline.  Stated on the queued-invocation counts after two deferrals of
the same callback into a batch that did not yet hold it. -/
theorem defer_discipline (fl : Flow) (e1 e2 : Event) (cb : Callback)
    (h : ∀ q ∈ fl.queue, q.cb ≠ cb) :
    queueCount
        (Observable.observableDefer (Observable.observableDefer fl e1 cb) e2 cb)
        cb = 1
      ∧ (cb.property = true →
          queueCount
            (Observable.streamDefer (Observable.streamDefer fl e1 cb) e2 cb)
            cb = 1)
      ∧ (cb.property = false →
          queueCount
            (Observable.streamDefer (Observable.streamDefer fl e1 cb) e2 cb)
            cb = 2) := by
  have hz : queueCount fl cb = 0 := queueCount_zero fl cb h
  have hbase : queueCount
      (Observable.observableDefer (Observable.observableDefer fl e1 cb) e2 cb)
      cb = 1 := by
    rw [observableDefer_eq_pushOnce, observableDefer_eq_pushOnce,
      pushOnce_of_not_queued fl cb e1 h,
      pushOnce_of_queued (fl.push cb e1) cb e2
        ⟨⟨cb, e1⟩, by simp [Flow.push], rfl⟩,
      queueCount_push, hz]
  refine ⟨hbase, fun hp => ?_, fun hp => ?_⟩
  · rw [streamDefer_eq_base _ _ _ hp, streamDefer_eq_base _ _ _ hp]
    exact hbase
  · rw [streamDefer_eq_push _ _ _ hp, streamDefer_eq_push _ _ _ hp,
      queueCount_push, queueCount_push, hz]

/-- Witness for C3 at an empty batch, once with a property-tagged callback
and once with a plain function callback. -/
theorem defer_discipline_witness :
    (queueCount
        (Observable.observableDefer
          (Observable.observableDefer {} (Event.raw (.num 1)) cbA)
          (Event.raw (.num 2)) cbA) cbA = 1
      ∧ (cbA.property = true → queueCount
          (Observable.streamDefer
            (Observable.streamDefer {} (Event.raw (.num 1)) cbA)
            (Event.raw (.num 2)) cbA) cbA = 1)
      ∧ (cbA.property = false → queueCount
          (Observable.streamDefer
            (Observable.streamDefer {} (Event.raw (.num 1)) cbA)
            (Event.raw (.num 2)) cbA) cbA = 2)) :=
  defer_discipline {} (Event.raw (.num 1)) (Event.raw (.num 2)) cbA
    (by simp)

/-- Claim C4: a single `willUpdate(source, list?)` call invokes `makeEvent`
exactly once — the event supply advances exactly as one `makeEvent`
invocation does — and that one Event is the argument carried by every
deferral of the round (shared, not per-listener).  The target list (`list`
if given, else `listeners`) and its length are snapshotted before
iteration: every scheduled callback comes from the pre-iteration snapshot
or is the parent, so a listener registered on the node during the round's
processing (whatever `growth` the property listeners cause) is never
deferred or notified within that same round. -/
theorem willUpdate_one_shared_event_snapshot (o : Observable) (fl : Flow)
    (supply : Nat) (source : Event) (cbs : Option (List (Option Callback)))
    (growth : Callback → List (Option Callback))
    (h : ∀ c ∈ cbs.getD o.listeners, c ≠ none) :
    ∃ o' fl' d,
      o.willUpdate fl supply source cbs growth
        = some (o', fl', (o.makeEvent supply source).2)
      ∧ fl'.sched = fl.sched ++ d
      ∧ (∀ q ∈ d, q.event = (o.makeEvent supply source).1
          ∧ (some q.cb ∈ cbs.getD o.listeners ∨ o.parent = some q.cb)) := by
  obtain ⟨o', fl', d, heq, _, hs, hm, _⟩ :=
    willUpdate_spec o fl supply source cbs growth h
  exact ⟨o', fl', d, heq, hs, hm⟩

/-- Witness for C4: one round over a base node with two listeners — the
fresh envelope with identity 0 is built once (supply 0 → 1) and shared. -/
theorem willUpdate_one_shared_event_snapshot_witness :
    ∃ o' fl' d,
      baseNotifyEx.willUpdate {} 0 (Event.raw (.num 9)) none noGrowth
        = some (o', fl',
            (baseNotifyEx.makeEvent 0 (Event.raw (.num 9))).2)
      ∧ fl'.sched = Flow.sched {} ++ d
      ∧ (∀ q ∈ d, q.event = (baseNotifyEx.makeEvent 0 (Event.raw (.num 9))).1
          ∧ (some q.cb ∈ (none : Option (List (Option Callback))).getD
                baseNotifyEx.listeners
             ∨ baseNotifyEx.parent = some q.cb)) :=
  willUpdate_one_shared_event_snapshot baseNotifyEx {} 0
    (Event.raw (.num 9)) none noGrowth (by decide)

/-- Claim C2: if applying a Stream's transform pipeline during `trigger(v)` (with
transformations enabled) throws `e`, the exception is caught at the
stream's boundary and redirected to `triggerErr(e)` on this same stream:
the call returns normally (the exception is not re-raised to the caller),
the stream keeps the pipeline's closure-state updates but is otherwise the
same node, the event supply is not consumed, and everything scheduled
carries the error value `e` and targets the stream's own `errListeners`
(or its parent) — so no value-channel update for `v` takes place. -/
theorem stream_pipeline_error_isolated (o : Observable) (fl : Flow)
    (supply : Nat) (v e : JsVal) (ts' : List Stage)
    (growth : Callback → List (Option Callback))
    (hk : o.kind = .stream)
    (ht : transformRun o.transforms v = (.error e, ts'))
    (he : ∀ c ∈ o.errListeners, c ≠ none) :
    ∃ fl' d,
      o.trigger fl supply v none growth
        = some ({ o with transforms := ts' }, fl', supply)
      ∧ fl'.sched = fl.sched ++ d
      ∧ (∀ q ∈ d, q.event = Event.raw e
          ∧ (some q.cb ∈ o.errListeners ∨ o.parent = some q.cb)) := by
  have hme : ({ o with transforms := ts' } : Observable).makeEvent supply
      (Event.raw e) = (Event.raw e, supply) := by
    unfold Observable.makeEvent
    show (match o.kind with
      | .base => (Event.envelope supply (Event.raw e) o.id, supply + 1)
      | .stream => (Event.raw e, supply)) = _
    rw [hk]
  obtain ⟨o'', fl', s', d, heq, _, hs, hm, hsup, ho⟩ :=
    update_spec { o with transforms := ts' } fl supply (Event.raw e)
      (some ({ o with transforms := ts' } : Observable).errListeners) growth
      (by simpa using he)
  have ho'' : o'' = { o with transforms := ts' } := ho rfl
  have hs' : s' = supply := by
    rw [hme] at hsup
    rcases hsup with h | h <;> exact h
  refine ⟨fl', d, ?_, hs, ?_⟩
  · unfold Observable.trigger Observable.go
    dsimp only [Option.getD]
    rw [if_pos rfl, ht]
    dsimp only
    unfold Observable.triggerErr
    rw [heq, ho'', hs']
  · intro q hq
    obtain ⟨hev, hcb⟩ := hm q hq
    rw [hme] at hev
    exact ⟨hev, by simpa using hcb⟩

/-- Witness for C2: a stream whose single transform throws `Error("boom")`
on input 7, with one value listener and one error listener. -/
theorem stream_pipeline_error_isolated_witness :
    ∃ fl' d,
      streamThrowEx.trigger {} 0 (.num 7) none noGrowth
        = some ({ streamThrowEx with transforms := [throwStage] }, fl', 0)
      ∧ fl'.sched = Flow.sched {} ++ d
      ∧ (∀ q ∈ d, q.event = Event.raw (.errVal "boom")
          ∧ (some q.cb ∈ streamThrowEx.errListeners
             ∨ streamThrowEx.parent = some q.cb)) :=
  stream_pipeline_error_isolated streamThrowEx {} 0 (.num 7)
    (.errVal "boom") [throwStage] noGrowth rfl rfl (by decide)

/-- Claim C5: a `filtering(f)` stage yields the `BadValue` sentinel for any input
on which `f` returns falsy, halting the pipeline with every later stage
unapplied (their closure states untouched); a Stream whose pipeline yields
`BadValue` performs no update (flow and supply unchanged); and concretely,
triggering `[3, -1, 2]` through `filtering(x => x > 0)` delivers exactly
the values 3 and 2 downstream. -/
theorem filtering_suppression :
    (∀ (pre post : List Stage) (p : JsVal → Bool) (v w : JsVal)
        (pre' : List Stage),
        transformRun pre v = (.ok w, pre') → w.isBad = false → p w = false →
        transformRun (pre ++ Stage.filtering p :: post) v
          = (.ok .badValue, pre' ++ Stage.filtering p :: post))
    ∧ (∀ (o : Observable) (fl : Flow) (supply : Nat) (v : JsVal)
        (ts' : List Stage) (growth : Callback → List (Option Callback)),
        o.kind = .stream →
        transformRun o.transforms v = (.ok .badValue, ts') →
        o.trigger fl supply v none growth
          = some ({ o with transforms := ts' }, fl, supply))
    ∧ (triggerSeq noGrowth [.num 3, .num (-1), .num 2]
          (streamFilterEx, {}, 0)).map (fun st => st.2.1.sched)
        = some [⟨cbA, Event.raw (.num 3)⟩, ⟨cbA, Event.raw (.num 2)⟩] := by
  refine ⟨transformRun_filter_halt, ?_, rfl⟩
  intro o fl supply v ts' growth _ ht
  unfold Observable.trigger Observable.go
  dsimp only [Option.getD]
  rw [if_pos rfl, ht]
  simp [JsVal.isBad]

/-- Witness for C5 (first two conjuncts carry hypotheses):
`filtering(x > 0)` after a doubling stage rejects input 1 (doubled to 2?
no — the mapping keeps it concrete: the prefix maps 1 to -2, the filter
rejects -2 and the trailing accumulation stage stays untouched), and a
stream whose pipeline yields `BadValue` schedules nothing. -/
theorem filtering_suppression_witness :
    transformRun
        ([Stage.fn (fun x => .ok (jsAdd x (.num (-3))))]
          ++ Stage.filtering posP :: [Stage.accumulation (.num 0) jsAdd]) (.num 1)
      = (.ok .badValue,
          [Stage.fn (fun x => .ok (jsAdd x (.num (-3))))]
            ++ Stage.filtering posP :: [Stage.accumulation (.num 0) jsAdd])
    ∧ streamFilterEx.trigger {} 0 (.num (-5)) none noGrowth
        = some ({ streamFilterEx with transforms := [Stage.filtering posP] },
            {}, 0) :=
  ⟨filtering_suppression.1 [Stage.fn (fun x => .ok (jsAdd x (.num (-3))))]
      [Stage.accumulation (.num 0) jsAdd] posP (.num 1) (.num (-2))
      [Stage.fn (fun x => .ok (jsAdd x (.num (-3))))] rfl rfl rfl,
   filtering_suppression.2.1 streamFilterEx {} 0 (.num (-5))
      [Stage.filtering posP] noGrowth rfl rfl⟩

/-- Claim C6: each `accumulation(seed, combine)` call owns one independent
running-state cell that persists across triggers: `accumulation(0, +)` over
triggers `[1,2,3]` delivers 1, 3, 6 downstream; with a second independent
`accumulation(0, +)` on the same node the first cell still ends at 6 while
the second folds over the first's outputs and ends at 10 (its own running
total); and in general the head accumulation stage's cell becomes
`f cur v` no matter what the rest of the pipeline is. -/
theorem accumulation_statefulness :
    ((triggerSeq noGrowth [.num 1, .num 2, .num 3] (streamAccEx, {}, 0)).map
        (fun st => st.2.1.sched)
      = some [⟨cbA, Event.raw (.num 1)⟩, ⟨cbA, Event.raw (.num 3)⟩,
              ⟨cbA, Event.raw (.num 6)⟩])
    ∧ ((triggerSeq noGrowth [.num 1, .num 2, .num 3]
          (streamAccTwoEx, {}, 0)).map (fun st => st.2.1.sched)
      = some [⟨cbA, Event.raw (.num 1)⟩, ⟨cbA, Event.raw (.num 4)⟩,
              ⟨cbA, Event.raw (.num 10)⟩])
    ∧ ((triggerSeq noGrowth [.num 1, .num 2, .num 3]
          (streamAccTwoEx, {}, 0)).map
          (fun st => st.1.transforms.map accStateOf)
      = some [some (.num 6), some (.num 10)])
    ∧ (∀ (c : JsVal) (f : JsVal → JsVal → JsVal) (rest : List Stage)
        (v : JsVal),
        (transformRun (Stage.accumulation c f :: rest) v).2.head?
          = some (Stage.accumulation (f c v) f)) :=
  ⟨rfl, rfl, rfl, transformRun_acc_head⟩

/-- Claim C7: `makeProp` classifies each own field by its current value —
null/undefined → Null-field Property, function → Function-valued, array →
Array-valued, plain object → Object-valued with a nested Core over the
object's fields, anything else → Scalar — and on the shell
`{a: null, b: 5, c: () => {}, d: [], e: {}}` the Core's `setup` yields
exactly that classification. -/
theorem field_classification :
    (∀ v : FieldVal, v.isNullish = true → classifyChain v = some .nullProp)
    ∧ (∀ v : FieldVal, v.isF = true → classifyChain v = some .funcProp)
    ∧ (∀ v : FieldVal, v.isA = true → classifyChain v = some .arrayProp)
    ∧ (∀ fs : List (String × FieldVal),
        classifyChain (.objVal fs) = some (.objectProp (classifyFields fs)))
    ∧ (∀ v : FieldVal, v.isNullish = false → v.isF = false → v.isA = false →
        v.isO = false → classifyChain v = some .scalar)
    ∧ coreSetup confOffEx classifyShellEx (fun _ => none) classifyShellEx
        = (none, [("a", .nullProp), ("b", .scalar), ("c", .funcProp),
                  ("d", .arrayProp), ("e", .objectProp [])]) := by
  refine ⟨?_, ?_, ?_, fun fs => rfl, ?_, rfl⟩
  · intro v hv
    cases v <;> simp_all [classifyChain, FieldVal.isNullish]
  · intro v hv
    cases v <;> simp_all [classifyChain, FieldVal.isF, FieldVal.isNullish,
      FieldVal.isA, FieldVal.isO]
  · intro v hv
    cases v <;> simp_all [classifyChain, FieldVal.isA, FieldVal.isNullish,
      FieldVal.isF, FieldVal.isO]
  · intro v h1 h2 h3 h4
    cases v <;> simp_all [classifyChain, FieldVal.isNullish, FieldVal.isF,
      FieldVal.isA, FieldVal.isO]

/-- Witness for C7 at one value per category. -/
theorem field_classification_witness :
    classifyChain .vnull = some .nullProp
    ∧ classifyChain .fnVal = some .funcProp
    ∧ classifyChain .arrVal = some .arrayProp
    ∧ classifyChain (.numv 5) = some .scalar :=
  ⟨field_classification.1 .vnull rfl,
   field_classification.2.1 .fnVal rfl,
   field_classification.2.2.1 .arrVal rfl,
   field_classification.2.2.2.2.1 (.numv 5) rfl rfl rfl rfl⟩

/-- Claim C1 counterexample: with keyword protection on and reserved list
`["p"]`, `ProAct.prob` on the shell `{good: 5, p: 1}` does raise the
reserved-keyword error — but the operation is not all-or-nothing as the
claim states: the returned shell still carries the `__pro__` Core
back-reference (it is installed before `core.prob()` runs) and the
Property materialized for the earlier field `good` remains in the core, so
a partially-wired object is produced. -/
theorem reserved_keyword_not_all_or_nothing :
    prob confOnEx (.objVal reservedShellEx) (fun _ => none)
      = .reactiveObject (probObject confOnEx reservedShellEx (fun _ => none))
    ∧ (probObject confOnEx reservedShellEx (fun _ => none)).errorMsg
        = some (keywordErrorMsg "p")
    ∧ (probObject confOnEx reservedShellEx (fun _ => none)).proRef
        = some ⟨[("good", .scalar)]⟩ :=
  ⟨rfl, rfl, rfl⟩

/-- Claim C1 amended: with keyword protection active, a reserved field name (not
suppressed by a `noprop` tag, and preceded only by unreserved fields) makes
the reactify operation fail by raising the reserved-keyword error — but the
failure is not all-or-nothing: the shell keeps the Core back-reference
installed before setup ran, and the Properties materialized for the fields
preceding the reserved one remain in the core. -/
theorem reserved_keyword_partial_wiring (conf : Configuration)
    (meta : String → Option (List String)) (k₀ : String) (v₀ : FieldVal)
    (pre rest : List (String × FieldVal))
    (hkp : conf.keyprops = true) (hk : conf.keypropList.contains k₀ = true)
    (hmeta : metaIsNoprop (meta k₀) = false)
    (hpre : ∀ kv ∈ pre, conf.keypropList.contains kv.1 = false) :
    (probObject conf (pre ++ (k₀, v₀) :: rest) meta).errorMsg
        = some (keywordErrorMsg k₀)
      ∧ (probObject conf (pre ++ (k₀, v₀) :: rest) meta).proRef
        = some ⟨(coreSetup conf (pre ++ (k₀, v₀) :: rest) meta pre).2⟩ := by
  have h := coreSetup_prefix_error conf (pre ++ (k₀, v₀) :: rest) meta k₀ v₀
    rest hkp hk hmeta pre hpre
  unfold probObject
  rw [h]
  exact ⟨rfl, rfl⟩

/-- Witness for C1's amended statement at the concrete reserved shell. -/
theorem reserved_keyword_partial_wiring_witness :
    (probObject confOnEx ([("good", FieldVal.numv 5)] ++ ("p", .numv 1) :: [])
        (fun _ => none)).errorMsg = some (keywordErrorMsg "p")
    ∧ (probObject confOnEx
          ([("good", FieldVal.numv 5)] ++ ("p", .numv 1) :: [])
          (fun _ => none)).proRef
        = some ⟨(coreSetup confOnEx
            ([("good", FieldVal.numv 5)] ++ ("p", .numv 1) :: [])
            (fun _ => none) [("good", FieldVal.numv 5)]).2⟩ :=
  reserved_keyword_partial_wiring confOnEx (fun _ => none) "p" (.numv 1)
    [("good", FieldVal.numv 5)] [] rfl (by decide) rfl (by decide)

end ProActJs
